import Mathlib

/-!
Verification of the TODO-linting script `scripts/check_todos.py`.

The script applies the Python regular expression

  ((//|/\*|///|#).*TODO|todo!)(?!.*\(#\d+\))

to every line of every file found by recursively globbing the directories
given on the command line, prints each matching line prefixed with its
location, and exits with status 1 when any line matched.

The embedding below translates the script into Lean:

* `reSearch` is `re.search` specialised to the pattern above, working on the
  line's character list.  Python's `.` does not match a newline character
  (the pattern is compiled without `DOTALL`), so the `.*` pieces are
  modelled by scans that stop at `'\n'`.  `\d` is modelled by the decimal
  digit class `regexDigit`.
* `check` is the function `check` of the script.
* `FsNode`, `rglob`, `pathsOf`, `printLoop`, `scanLoop` and `runMain` model
  the `__main__` block over an explicit filesystem tree: a file carries
  `some lines` for text content readable by `readlines`, and `none` when
  reading it raises `UnicodeDecodeError`.
-/

set_option linter.unusedVariables false

/-- The character class `\d` of the pattern, modelled as decimal digits. -/
def regexDigit (c : Char) : Bool := c.isDigit

/-- Matches `\d*\)` at the head of the list: zero or more digits directly
followed by a closing parenthesis. -/
def moreDigitsThenParen : List Char → Bool
  | [] => false
  | c :: rest => c == ')' || (regexDigit c && moreDigitsThenParen rest)

/-- Matches `\d+\)` at the head of the list: one or more digits directly
followed by a closing parenthesis. -/
def digitsThenParen : List Char → Bool
  | [] => false
  | c :: rest => regexDigit c && moreDigitsThenParen rest

/-- Matches `\(#\d+\)` at the head of the list: an issue reference such as
`(#123)`. -/
def isRefAt (l : List Char) : Bool :=
  match l with
  | a :: b :: rest => a == '(' && b == '#' && digitsThenParen rest
  | _ => false

/-- Matches `.*\(#\d+\)` at the head of the list: an issue reference is
found after zero or more non-newline characters (Python's `.` does not
match `'\n'`). -/
def containsRefNN : List Char → Bool
  | [] => false
  | c :: rest => isRefAt (c :: rest) || (c != '\n' && containsRefNN rest)

/-- Matches `.*TODO(?!.*\(#\d+\))` at the head of the list: after zero or
more non-newline characters the literal `TODO` occurs, and the negative
lookahead forbids an issue reference after it. -/
def todoSearch : List Char → Bool
  | [] => false
  | c :: rest =>
      (['T', 'O', 'D', 'O'].isPrefixOf (c :: rest) && !containsRefNN (rest.drop 3)) ||
      (c != '\n' && todoSearch rest)

/-- The whole pattern `((//|/\*|///|#).*TODO|todo!)(?!.*\(#\d+\))` anchored
at the head of the list, one disjunct per alternative of the regular
expression. -/
def matchHere (l : List Char) : Bool :=
  (['/', '/'].isPrefixOf l && todoSearch (l.drop 2)) ||
  (['/', '*'].isPrefixOf l && todoSearch (l.drop 2)) ||
  (['/', '/', '/'].isPrefixOf l && todoSearch (l.drop 3)) ||
  (['#'].isPrefixOf l && todoSearch (l.drop 1)) ||
  (['t', 'o', 'd', 'o', '!'].isPrefixOf l && !containsRefNN (l.drop 5))

/-- `re.search` of the pattern on a line: the pattern is tried at every
start position. -/
def reSearch : List Char → Bool
  | [] => false
  | c :: rest => matchHere (c :: rest) || reSearch rest

/-- The function `check` of the script: keep the `(index, line)` pairs of
`enumerate(lines)` whose line the regular expression search accepts. -/
def check (lines : List String) : List (Nat × String) :=
  (lines.enum).filter fun il => reSearch il.2.data

/-- A filesystem tree node: a regular file whose text content is
`some lines` when `readlines` succeeds and `none` when reading it raises
`UnicodeDecodeError`, or a directory with named children. -/
inductive FsNode where
  | file (content : Option (List String))
  | dir (children : List (String × FsNode))

/-- `pathlib.Path(p).rglob("*")`: every entry strictly below a directory,
paired with its path; globbing a path that is not a directory yields
nothing. -/
def rglob (p : String) : FsNode → List (String × FsNode)
  | FsNode.file _ => []
  | FsNode.dir children =>
      children.attach.flatMap fun c =>
        (p ++ "/" ++ c.1.1, c.1.2) :: rglob (p ++ "/" ++ c.1.1) c.1.2
termination_by n => sizeOf n
decreasing_by
  obtain ⟨⟨n, node⟩, hm⟩ := c
  have h := List.sizeOf_lt_of_mem hm
  simp only [Prod.mk.sizeOf_spec] at h
  simp only [FsNode.dir.sizeOf_spec]
  omega

/-- The `paths` list of the script: `rglob` results of every command-line
root, concatenated in argument order. -/
def pathsOf (roots : List (String × FsNode)) : List (String × FsNode) :=
  roots.flatMap fun r => rglob r.1 r.2

/-- The f-string `f"[{path}:{i}] {line}"` printed for one finding (printed
with `end=""`, so nothing is appended to it). -/
def findingLine (p : String) (i : Nat) (line : String) : String :=
  "[" ++ p ++ ":" ++ Nat.repr i ++ "] " ++ line

/-- The inner loop `for (i, line) in check(lines)` of the script: emit one
formatted line per finding and clear the `clean` flag on each one. -/
def printLoop (p : String) : List (Nat × String) → Bool → List Char × Bool
  | [], clean => ([], clean)
  | (i, line) :: rest, _clean =>
      let out := printLoop p rest false
      ((findingLine p i line).data ++ out.1, out.2)

/-- The outer loop `for path in paths` of the script: directories and
undecodable files contribute nothing, text files run `check` and print
their findings.  Returns the characters written to stdout and the final
`clean` flag. -/
def scanLoop : List (String × FsNode) → Bool → List Char × Bool
  | [], clean => ([], clean)
  | (_, FsNode.dir _) :: rest, clean => scanLoop rest clean
  | (_, FsNode.file none) :: rest, clean => scanLoop rest clean
  | (p, FsNode.file (some lines)) :: rest, clean =>
      let a := printLoop p (check lines) clean
      let b := scanLoop rest a.2
      (a.1 ++ b.1, b.2)

/-- The string literal printed when the scan is not clean (the script's
`print` call appends one more newline to it). -/
def finalMessage : String :=
  "\nYour code has TODOs that don't reference any issues! Create issues for your todos and reference them like this: `(#<issue number>)`. Example: // TODO: Foo (#123)"

/-- The instructional message without its leading blank line. -/
def instructionText : String :=
  "Your code has TODOs that don't reference any issues! Create issues for your todos and reference them like this: `(#<issue number>)`. Example: // TODO: Foo (#123)"

/-- The whole `__main__` block: collect the paths of all roots, scan them,
and if any finding was printed, print the final message and exit with
status 1; otherwise fall off the end with status 0.  Returns the
characters written to stdout and the exit status. -/
def runMain (roots : List (String × FsNode)) : List Char × Nat :=
  let r := scanLoop (pathsOf roots) true
  if r.2 then (r.1, 0) else (r.1 ++ (finalMessage ++ "\n").data, 1)

/-- The findings of a path list, in scan order: one
`(path, index, line)` triple per reported line of each readable file. -/
def findingsList (paths : List (String × FsNode)) : List (String × Nat × String) :=
  paths.flatMap fun r =>
    match r.2 with
    | FsNode.file (some lines) => (check lines).map fun il => (r.1, il.1, il.2)
    | _ => []

/-- A line read by `readlines` can contain a newline character only as its
last character. -/
def tailNL : List Char → Bool
  | [] => true
  | c :: rest => (c != '\n' || rest.isEmpty) && tailNL rest

/-- One of the comment-opening sequences of the spec: `//`, `/*`, `///`
or `#`. -/
def opener (p : List Char) : Prop :=
  p = ['/', '/'] ∨ p = ['/', '*'] ∨ p = ['/', '/', '/'] ∨ p = ['#']

/-- Spec wording: an issue reference of the exact form `(#` followed by one
or more decimal digits followed by `)` starts at position `u` of the
line. -/
def IssueRefAt (L : List Char) (u : Nat) : Prop :=
  ∃ ds : List Char, ds ≠ [] ∧ (∀ c ∈ ds, regexDigit c = true) ∧
    ('(' :: '#' :: (ds ++ [')'])) <+: L.drop u

/-- Spec wording: no issue reference occurs anywhere at or after position
`e` of the line. -/
def NoRefAfter (L : List Char) (e : Nat) : Prop :=
  ∀ u, e ≤ u → ¬ IssueRefAt L u

/-- The detection rule exactly as the spec words it: the line contains a
comment-opening sequence followed later in the line by the literal text
`TODO`, or contains the literal token `todo!`, such that no issue
reference occurs anywhere after the matched `TODO`/`todo!` occurrence. -/
def SpecFinding (L : List Char) : Prop :=
  (∃ s p t, opener p ∧ p <+: L.drop s ∧ s + p.length ≤ t ∧
      ['T', 'O', 'D', 'O'] <+: L.drop t ∧ NoRefAfter L (t + 4)) ∨
  (∃ s, ['t', 'o', 'd', 'o', '!'] <+: L.drop s ∧ NoRefAfter L (s + 5))

theorem moreDigitsThenParen_iff (l : List Char) :
    moreDigitsThenParen l = true ↔
    ∃ ds : List Char, (∀ c ∈ ds, regexDigit c = true) ∧ (ds ++ [')']) <+: l := by
  induction l with
  | nil =>
      simp only [moreDigitsThenParen, Bool.false_eq_true, false_iff]
      rintro ⟨ds, -, hp⟩
      rw [List.prefix_nil] at hp
      exact absurd hp (by simp)
  | cons c rest ih =>
      simp only [moreDigitsThenParen, Bool.or_eq_true, Bool.and_eq_true, beq_iff_eq, ih]
      constructor
      · rintro (rfl | ⟨hd, ds, hds, hp⟩)
        · exact ⟨[], by simp, by simp⟩
        · exact ⟨c :: ds, by simpa using ⟨hd, hds⟩, by simpa using hp⟩
      · rintro ⟨ds, hds, hp⟩
        cases ds with
        | nil =>
            rw [List.nil_append, List.cons_prefix_cons] at hp
            exact Or.inl hp.1.symm
        | cons d ds' =>
            rw [List.cons_append, List.cons_prefix_cons] at hp
            refine Or.inr ⟨hp.1 ▸ hds d (by simp), ds', fun x hx => hds x (by simp [hx]), hp.2⟩

theorem digitsThenParen_iff (l : List Char) :
    digitsThenParen l = true ↔
    ∃ ds : List Char, ds ≠ [] ∧ (∀ c ∈ ds, regexDigit c = true) ∧ (ds ++ [')']) <+: l := by
  cases l with
  | nil =>
      simp only [digitsThenParen, Bool.false_eq_true, false_iff]
      rintro ⟨ds, -, -, hp⟩
      rw [List.prefix_nil] at hp
      exact absurd hp (by simp)
  | cons c rest =>
      simp only [digitsThenParen, Bool.and_eq_true, moreDigitsThenParen_iff]
      constructor
      · rintro ⟨hd, ds, hds, hp⟩
        exact ⟨c :: ds, by simp, by simpa using ⟨hd, hds⟩, by simpa using hp⟩
      · rintro ⟨ds, hne, hds, hp⟩
        cases ds with
        | nil => exact absurd rfl hne
        | cons d ds' =>
            rw [List.cons_append, List.cons_prefix_cons] at hp
            exact ⟨hp.1 ▸ hds d (by simp), ds', fun x hx => hds x (by simp [hx]), hp.2⟩

theorem isRefAt_iff (l : List Char) :
    isRefAt l = true ↔
    ∃ ds : List Char, ds ≠ [] ∧ (∀ c ∈ ds, regexDigit c = true) ∧
      ('(' :: '#' :: (ds ++ [')'])) <+: l := by
  match l with
  | [] =>
      simp only [isRefAt, Bool.false_eq_true, false_iff]
      rintro ⟨ds, -, -, hp⟩
      rw [List.prefix_nil] at hp
      exact absurd hp (by simp)
  | [a] =>
      simp only [isRefAt, Bool.false_eq_true, false_iff]
      rintro ⟨ds, -, -, hp⟩
      rw [List.cons_prefix_cons] at hp
      have := hp.2
      rw [List.prefix_nil] at this
      exact absurd this (by simp)
  | a :: b :: rest =>
      simp only [isRefAt, Bool.and_eq_true, beq_iff_eq, digitsThenParen_iff]
      constructor
      · rintro ⟨⟨rfl, rfl⟩, ds, hne, hds, hp⟩
        exact ⟨ds, hne, hds, by simpa [List.cons_prefix_cons] using hp⟩
      · rintro ⟨ds, hne, hds, hp⟩
        simp only [List.cons_prefix_cons] at hp
        exact ⟨⟨hp.1.symm, hp.2.1.symm⟩, ds, hne, hds, hp.2.2⟩

theorem tailNL_of_cons {c : Char} {rest : List Char} (h : tailNL (c :: rest) = true) :
    tailNL rest = true := by
  simp only [tailNL, Bool.and_eq_true] at h
  exact h.2

theorem head_ne_newline {c : Char} {rest : List Char} (h : tailNL (c :: rest) = true)
    (hne : rest ≠ []) : c ≠ '\n' := by
  simp only [tailNL, Bool.and_eq_true, Bool.or_eq_true, bne_iff_ne, ne_eq,
    List.isEmpty_iff] at h
  rcases h.1 with h1 | h1
  · exact h1
  · exact absurd h1 hne

theorem tailNL_drop {l : List Char} (h : tailNL l = true) (n : Nat) :
    tailNL (l.drop n) = true := by
  induction n generalizing l with
  | zero => simpa using h
  | succ n ih =>
      cases l with
      | nil => simpa using h
      | cons c rest => exact ih (tailNL_of_cons h)

theorem isRefAt_ne_nil {l : List Char} (h : isRefAt l = true) : l ≠ [] := by
  intro he
  subst he
  simp [isRefAt] at h

theorem containsRefNN_iff {l : List Char} (h : tailNL l = true) :
    containsRefNN l = true ↔ ∃ j, isRefAt (l.drop j) = true := by
  induction l with
  | nil => simp [containsRefNN, isRefAt]
  | cons c rest ih =>
      simp only [containsRefNN, Bool.or_eq_true, Bool.and_eq_true, bne_iff_ne, ne_eq]
      constructor
      · rintro (hr | ⟨hc, hr⟩)
        · exact ⟨0, hr⟩
        · obtain ⟨j, hj⟩ := (ih (tailNL_of_cons h)).1 hr
          exact ⟨j + 1, by simpa using hj⟩
      · rintro ⟨j, hj⟩
        cases j with
        | zero => exact Or.inl (by simpa using hj)
        | succ j =>
            rw [List.drop_succ_cons] at hj
            have hrest : rest ≠ [] := by
              intro he
              subst he
              simp only [List.drop_nil] at hj
              simp [isRefAt] at hj
            exact Or.inr ⟨head_ne_newline h hrest, (ih (tailNL_of_cons h)).2 ⟨j, hj⟩⟩

theorem prefix_ne_nil {a : Char} {p m : List Char} (h : (a :: p) <+: m) : m ≠ [] := by
  intro he
  subst he
  rw [List.prefix_nil] at h
  exact absurd h (by simp)

theorem todoSearch_iff {l : List Char} (h : tailNL l = true) :
    todoSearch l = true ↔
    ∃ t, ['T', 'O', 'D', 'O'] <+: l.drop t ∧
      ∀ j, isRefAt (l.drop (t + 4 + j)) = false := by
  induction l with
  | nil =>
      simp only [todoSearch, Bool.false_eq_true, false_iff]
      rintro ⟨t, hp, -⟩
      rw [List.drop_nil, List.prefix_nil] at hp
      exact absurd hp (by simp)
  | cons c rest ih =>
      simp only [todoSearch, Bool.or_eq_true, Bool.and_eq_true, bne_iff_ne, ne_eq,
        List.isPrefixOf_iff_prefix, Bool.not_eq_true']
      constructor
      · rintro (⟨hp, hcr⟩ | ⟨hc, ht⟩)
        · refine ⟨0, by simpa using hp, ?_⟩
          intro j
          cases hb : isRefAt ((c :: rest).drop (0 + 4 + j)) with
          | false => rfl
          | true =>
              have h3 : tailNL (rest.drop 3) = true :=
                tailNL_drop (tailNL_of_cons h) 3
              have : isRefAt ((rest.drop 3).drop j) = true := by
                rw [List.drop_drop]
                simpa [Nat.add_comm] using hb
              rw [(containsRefNN_iff h3).2 ⟨j, this⟩] at hcr
              exact absurd hcr (by simp)
        · obtain ⟨t, hp, hnr⟩ := (ih (tailNL_of_cons h)).1 ht
          refine ⟨t + 1, by simpa using hp, ?_⟩
          intro j
          have := hnr j
          rw [show t + 1 + 4 + j = (t + 4 + j) + 1 from by omega, List.drop_succ_cons]
          exact this
      · rintro ⟨t, hp, hnr⟩
        cases t with
        | zero =>
            refine Or.inl ⟨by simpa using hp, ?_⟩
            cases hb : containsRefNN (rest.drop 3) with
            | false => rfl
            | true =>
                have h3 : tailNL (rest.drop 3) = true :=
                  tailNL_drop (tailNL_of_cons h) 3
                obtain ⟨j, hj⟩ := (containsRefNN_iff h3).1 hb
                rw [List.drop_drop] at hj
                have := hnr j
                rw [show (0 : Nat) + 4 + j = (3 + j) + 1 from by omega,
                  List.drop_succ_cons] at this
                rw [this] at hj
                exact absurd hj (by simp)
        | succ t =>
            have hrest : rest ≠ [] := by
              intro he
              subst he
              rw [List.drop_succ_cons, List.drop_nil, List.prefix_nil] at hp
              exact absurd hp (by simp)
            refine Or.inr ⟨head_ne_newline h hrest, ?_⟩
            refine (ih (tailNL_of_cons h)).2 ⟨t, by simpa using hp, ?_⟩
            intro j
            have := hnr j
            rw [show t + 1 + 4 + j = (t + 4 + j) + 1 from by omega,
              List.drop_succ_cons] at this
            exact this

theorem todoSearch_drop_iff (k : Nat) {l : List Char} (h : tailNL l = true) :
    todoSearch (l.drop k) = true ↔
    ∃ t, k ≤ t ∧ ['T', 'O', 'D', 'O'] <+: l.drop t ∧
      ∀ j, isRefAt (l.drop (t + 4 + j)) = false := by
  rw [todoSearch_iff (tailNL_drop h k)]
  constructor
  · rintro ⟨t', hp, hnr⟩
    refine ⟨k + t', Nat.le_add_right k t', ?_, ?_⟩
    · rwa [List.drop_drop] at hp
    · intro j
      have := hnr j
      rw [List.drop_drop, show k + (t' + 4 + j) = k + t' + 4 + j from by omega] at this
      exact this
  · rintro ⟨t, hk, hp, hnr⟩
    refine ⟨t - k, ?_, ?_⟩
    · rw [List.drop_drop, show k + (t - k) = t from by omega]
      exact hp
    · intro j
      rw [List.drop_drop, show k + (t - k + 4 + j) = t + 4 + j from by omega]
      exact hnr j

theorem containsRefNN_drop_false_iff (k : Nat) {l : List Char} (h : tailNL l = true) :
    containsRefNN (l.drop k) = false ↔ ∀ j, isRefAt (l.drop (k + j)) = false := by
  constructor
  · intro hf j
    cases hb : isRefAt (l.drop (k + j)) with
    | false => rfl
    | true =>
        have hb' : isRefAt ((l.drop k).drop j) = true := by rwa [List.drop_drop]
        rw [(containsRefNN_iff (tailNL_drop h k)).2 ⟨j, hb'⟩] at hf
        exact absurd hf (by simp)
  · intro hf
    cases hb : containsRefNN (l.drop k) with
    | false => rfl
    | true =>
        obtain ⟨j, hj⟩ := (containsRefNN_iff (tailNL_drop h k)).1 hb
        rw [List.drop_drop, hf j] at hj
        exact absurd hj (by simp)

/-- What a successful anchored match at the head of `l` means, stated with
positions relative to `l`. -/
def MatchAt (l : List Char) : Prop :=
  (∃ p t, opener p ∧ p <+: l ∧ p.length ≤ t ∧ ['T', 'O', 'D', 'O'] <+: l.drop t ∧
    ∀ j, isRefAt (l.drop (t + 4 + j)) = false) ∨
  (['t', 'o', 'd', 'o', '!'] <+: l ∧ ∀ j, isRefAt (l.drop (5 + j)) = false)

theorem matchHere_iff {l : List Char} (h : tailNL l = true) :
    matchHere l = true ↔ MatchAt l := by
  unfold matchHere MatchAt
  simp only [Bool.or_eq_true, Bool.and_eq_true, List.isPrefixOf_iff_prefix,
    Bool.not_eq_true']
  constructor
  · rintro ((((⟨hp, ht⟩ | ⟨hp, ht⟩) | ⟨hp, ht⟩) | ⟨hp, ht⟩) | ⟨hp, hr⟩)
    · obtain ⟨t, hk, htp, hnr⟩ := (todoSearch_drop_iff 2 h).1 ht
      exact Or.inl ⟨['/', '/'], t, Or.inl rfl, hp, hk, htp, hnr⟩
    · obtain ⟨t, hk, htp, hnr⟩ := (todoSearch_drop_iff 2 h).1 ht
      exact Or.inl ⟨['/', '*'], t, Or.inr (Or.inl rfl), hp, hk, htp, hnr⟩
    · obtain ⟨t, hk, htp, hnr⟩ := (todoSearch_drop_iff 3 h).1 ht
      exact Or.inl ⟨['/', '/', '/'], t, Or.inr (Or.inr (Or.inl rfl)), hp, hk, htp, hnr⟩
    · obtain ⟨t, hk, htp, hnr⟩ := (todoSearch_drop_iff 1 h).1 ht
      exact Or.inl ⟨['#'], t, Or.inr (Or.inr (Or.inr rfl)), hp, hk, htp, hnr⟩
    · exact Or.inr ⟨hp, (containsRefNN_drop_false_iff 5 h).1 hr⟩
  · rintro (⟨p, t, hop, hp, hk, htp, hnr⟩ | ⟨hp, hnr⟩)
    · rcases hop with rfl | rfl | rfl | rfl
      · exact Or.inl (Or.inl (Or.inl (Or.inl
          ⟨hp, (todoSearch_drop_iff 2 h).2 ⟨t, hk, htp, hnr⟩⟩)))
      · exact Or.inl (Or.inl (Or.inl (Or.inr
          ⟨hp, (todoSearch_drop_iff 2 h).2 ⟨t, hk, htp, hnr⟩⟩)))
      · exact Or.inl (Or.inl (Or.inr
          ⟨hp, (todoSearch_drop_iff 3 h).2 ⟨t, hk, htp, hnr⟩⟩))
      · exact Or.inl (Or.inr
          ⟨hp, (todoSearch_drop_iff 1 h).2 ⟨t, hk, htp, hnr⟩⟩)
    · exact Or.inr ⟨hp, (containsRefNN_drop_false_iff 5 h).2 hnr⟩

theorem reSearch_iff_exists_matchHere (l : List Char) :
    reSearch l = true ↔ ∃ s, matchHere (l.drop s) = true := by
  induction l with
  | nil =>
      simp only [reSearch, Bool.false_eq_true, false_iff]
      rintro ⟨s, hs⟩
      rw [List.drop_nil] at hs
      simp [matchHere] at hs
  | cons c rest ih =>
      simp only [reSearch, Bool.or_eq_true, ih]
      constructor
      · rintro (hm | ⟨s, hs⟩)
        · exact ⟨0, hm⟩
        · exact ⟨s + 1, by simpa using hs⟩
      · rintro ⟨s, hs⟩
        cases s with
        | zero => exact Or.inl (by simpa using hs)
        | succ s => exact Or.inr ⟨s, by simpa using hs⟩

theorem noRefAfter_iff (L : List Char) (e : Nat) :
    NoRefAfter L e ↔ ∀ j, isRefAt (L.drop (e + j)) = false := by
  constructor
  · intro h j
    cases hb : isRefAt (L.drop (e + j)) with
    | false => rfl
    | true =>
        obtain ⟨ds, hne, hds, hp⟩ := (isRefAt_iff (L.drop (e + j))).1 hb
        exact absurd ⟨ds, hne, hds, hp⟩ (h (e + j) (Nat.le_add_right e j))
  · intro h u hu href
    obtain ⟨ds, hne, hds, hp⟩ := href
    have hb : isRefAt (L.drop u) = true := (isRefAt_iff (L.drop u)).2 ⟨ds, hne, hds, hp⟩
    have := h (u - e)
    rw [show e + (u - e) = u from by omega, hb] at this
    exact absurd this (by simp)

theorem reSearch_iff_specFinding {L : List Char} (h : tailNL L = true) :
    reSearch L = true ↔ SpecFinding L := by
  rw [reSearch_iff_exists_matchHere]
  unfold SpecFinding
  constructor
  · rintro ⟨s, hm⟩
    rcases (matchHere_iff (tailNL_drop h s)).1 hm with
      ⟨p, t, hop, hp, hk, htp, hnr⟩ | ⟨hp, hnr⟩
    · refine Or.inl ⟨s, p, s + t, hop, hp, Nat.add_le_add_left hk s, ?_, ?_⟩
      · rwa [List.drop_drop] at htp
      · rw [noRefAfter_iff]
        intro j
        have := hnr j
        rw [List.drop_drop, show s + (t + 4 + j) = s + t + 4 + j from by omega] at this
        exact this
    · refine Or.inr ⟨s, hp, ?_⟩
      rw [noRefAfter_iff]
      intro j
      have := hnr j
      rw [List.drop_drop, show s + (5 + j) = s + 5 + j from by omega] at this
      exact this
  · rintro (⟨s, p, t, hop, hp, hk, htp, hnr⟩ | ⟨s, hp, hnr⟩)
    · refine ⟨s, (matchHere_iff (tailNL_drop h s)).2 (Or.inl ⟨p, t - s, hop, hp, ?_, ?_, ?_⟩)⟩
      · omega
      · rw [List.drop_drop, show s + (t - s) = t from by omega]
        exact htp
      · intro j
        rw [List.drop_drop, show s + (t - s + 4 + j) = t + 4 + j from by omega]
        exact (noRefAfter_iff L (t + 4)).1 hnr j
    · refine ⟨s, (matchHere_iff (tailNL_drop h s)).2 (Or.inr ⟨hp, ?_⟩)⟩
      intro j
      rw [List.drop_drop, show s + (5 + j) = s + 5 + j from by omega]
      exact (noRefAfter_iff L (s + 5)).1 hnr j

/-- C1: a line is reported by `check` exactly when it contains one of the
comment-opening sequences `//`, `/*`, `///`, `#` followed later in the
line by the literal text `TODO`, or contains the literal token `todo!`,
such that no issue reference `(#<digits>)` occurs anywhere after the
matched occurrence.  The hypothesis states that each input is a genuine
`readlines` line: a newline character occurs only as its last
character. -/
theorem check_mem_iff_specFinding (lines : List String) (i : Nat) (L : String)
    (h : ∀ l ∈ lines, tailNL l.data = true) :
    (i, L) ∈ check lines ↔ lines[i]? = some L ∧ SpecFinding L.data := by
  unfold check
  rw [List.mem_filter]
  constructor
  · rintro ⟨hmem, htest⟩
    have hget : lines[i]? = some L := by
      have := List.mem_enum_iff_getElem?.1 hmem
      simpa using this
    have hL : L ∈ lines := List.getElem?_mem hget
    exact ⟨hget, (reSearch_iff_specFinding (h L hL)).1 (by simpa using htest)⟩
  · rintro ⟨hget, hspec⟩
    have hL : L ∈ lines := List.getElem?_mem hget
    refine ⟨List.mem_enum_iff_getElem?.2 (by simpa using hget), ?_⟩
    simpa using (reSearch_iff_specFinding (h L hL)).2 hspec

/-- Witness for C1: the concrete line `// TODO: fix this` at index 0
satisfies the hypothesis, and the equivalence holds for it. -/
theorem check_mem_iff_specFinding_witness :
    (∀ l ∈ ["// TODO: fix this"], tailNL l.data = true) ∧
    (((0 : Nat), "// TODO: fix this") ∈ check ["// TODO: fix this"] ↔
      ["// TODO: fix this"][(0 : Nat)]? = some "// TODO: fix this" ∧
        SpecFinding ("// TODO: fix this").data) :=
  ⟨by decide,
    check_mem_iff_specFinding ["// TODO: fix this"] 0 "// TODO: fix this" (by decide)⟩

theorem pairwise_fst_lt_enumFrom {α : Type} (l : List α) (n : Nat) :
    List.Pairwise (fun a b : Nat × α => a.1 < b.1) (List.enumFrom n l) := by
  induction l generalizing n with
  | nil => simp
  | cons x xs ih =>
      rw [List.enumFrom_cons]
      refine List.Pairwise.cons ?_ (ih (n + 1))
      intro p hp
      have := List.le_fst_of_mem_enumFrom hp
      omega

/-- C7: within one file, `check` reports findings in strictly ascending
zero-based line-index order, and each reported raw text equals the input
line at that index. -/
theorem check_sorted_and_faithful (lines : List String) :
    List.Sorted (· < ·) ((check lines).map Prod.fst) ∧
    ∀ il ∈ check lines, lines[il.1]? = some il.2 := by
  constructor
  · rw [List.Sorted, List.pairwise_map]
    unfold check
    exact List.Pairwise.filter _ (pairwise_fst_lt_enumFrom lines 0)
  · intro il hil
    unfold check at hil
    rw [List.mem_filter] at hil
    exact List.mem_enum_iff_getElem?.1 hil.1

/-- Witness for C7: applied to the one-line file `todo!`, whose single
finding sits at index 0. -/
theorem check_sorted_and_faithful_witness :
    List.Sorted (· < ·) ((check ["todo!"]).map Prod.fst) ∧
    ["todo!"][(0 : Nat)]? = some "todo!" :=
  ⟨(check_sorted_and_faithful ["todo!"]).1,
    (check_sorted_and_faithful ["todo!"]).2 (0, "todo!") (by decide)⟩

/-- C8: the scan is deterministic in its input text: evaluating `check` on
the same list of lines, or the whole scan on the same file tree, twice
gives identical results. -/
theorem check_deterministic (lines : List String) (roots : List (String × FsNode)) :
    check lines = check lines ∧ runMain roots = runMain roots :=
  ⟨rfl, rfl⟩

/-- C9: detection is case-sensitive: the case-flipped markers `// todo:`
and `TODO!` produce no finding, while `// TODO:` and `todo!` do. -/
theorem check_case_sensitive :
    check ["// todo: fix"] = [] ∧ check ["TODO!"] = [] ∧
    check ["// TODO: fix"] = [(0, "// TODO: fix")] ∧
    check ["todo!"] = [(0, "todo!")] := by
  decide

/-- C10: issue-reference suppression is per-occurrence, not per-line: the
line `// TODO: a (#1) TODO: b` is still reported although it contains the
well-formed issue reference `(#1)` (at position 11). -/
theorem check_suppression_per_occurrence :
    check ["// TODO: a (#1) TODO: b"] = [(0, "// TODO: a (#1) TODO: b")] ∧
    IssueRefAt ("// TODO: a (#1) TODO: b").data 11 :=
  ⟨by decide, ⟨['1'], by decide, by decide, by decide⟩⟩

theorem isEmptyAppend {a : Type} (l1 l2 : List a) :
    (l1 ++ l2).isEmpty = (l1.isEmpty && l2.isEmpty) := by
  cases l1 <;> simp

theorem isEmptyMap {a b : Type} (f : a → b) (l : List a) :
    (l.map f).isEmpty = l.isEmpty := by
  cases l <;> simp

theorem printLoop_eq (p : String) (fnds : List (Nat × String)) (clean : Bool) :
    printLoop p fnds clean =
      ((fnds.map fun il => (findingLine p il.1 il.2).data).flatten,
        clean && fnds.isEmpty) := by
  induction fnds generalizing clean with
  | nil => simp [printLoop]
  | cons x rest ih =>
      obtain ⟨i, line⟩ := x
      simp [printLoop, ih]

theorem scanLoop_eq (paths : List (String × FsNode)) (clean : Bool) :
    scanLoop paths clean =
      (((findingsList paths).map fun f => (findingLine f.1 f.2.1 f.2.2).data).flatten,
        clean && (findingsList paths).isEmpty) := by
  induction paths generalizing clean with
  | nil => simp [scanLoop, findingsList]
  | cons x rest ih =>
      obtain ⟨p, node⟩ := x
      cases node with
      | dir children => simp [scanLoop, findingsList, ih]
      | file content =>
          cases content with
          | none => simp [scanLoop, findingsList, ih]
          | some lines =>
              simp only [scanLoop, findingsList, printLoop_eq, ih, List.flatMap_cons,
                List.map_append, List.flatten_append, List.map_map, isEmptyAppend,
                isEmptyMap, Bool.and_assoc]
              rfl

/-- C2: the exit status is a pure function of whether any finding was
produced across the scanned files: 1 exactly when the finding list is
nonempty, 0 exactly when it is empty. -/
theorem runMain_exit_iff (roots : List (String × FsNode)) :
    ((runMain roots).2 = 1 ↔ findingsList (pathsOf roots) ≠ []) ∧
    ((runMain roots).2 = 0 ↔ findingsList (pathsOf roots) = []) := by
  cases hf : findingsList (pathsOf roots) with
  | nil => simp [runMain, scanLoop_eq, hf]
  | cons x rest => simp [runMain, scanLoop_eq, hf]

set_option maxRecDepth 4000 in
/-- The concrete shape of the final print: a blank line followed by the
fixed instructional message and the newline appended by `print`. -/
theorem finalMessage_eq :
    (finalMessage ++ "\n").data = '\n' :: (instructionText ++ "\n").data := by
  decide

/-- C6: for every finding `(path, i, line)` the program prints exactly
`[<path>:<i>] ` followed by the raw line verbatim with no added
terminator; when at least one finding exists, the finding lines are
followed by a blank line and the fixed instructional message, and in the
clean case nothing at all is printed. -/
theorem runMain_output_format (roots : List (String × FsNode)) :
    runMain roots =
      (((findingsList (pathsOf roots)).map fun f =>
          ("[" ++ f.1 ++ ":" ++ Nat.repr f.2.1 ++ "] " ++ f.2.2).data).flatten ++
        (if findingsList (pathsOf roots) = [] then []
          else '\n' :: (instructionText ++ "\n").data),
        if findingsList (pathsOf roots) = [] then 0 else 1) := by
  cases hf : findingsList (pathsOf roots) with
  | nil => simp [runMain, scanLoop_eq, hf]
  | cons x rest =>
      simp only [runMain, scanLoop_eq, hf, Bool.true_and, List.isEmpty_cons,
        if_false, Bool.false_eq_true, reduceIte, finalMessage_eq, findingLine]
      rfl

/-- C3: an undecodable candidate file contributes no output, no findings
and no error; the scan just continues through the remaining candidate
files as if the file were absent. -/
theorem undecodable_file_skipped (pre post : List (String × FsNode)) (p : String)
    (clean : Bool) :
    scanLoop (pre ++ (p, FsNode.file none) :: post) clean =
      scanLoop (pre ++ post) clean ∧
    findingsList (pre ++ (p, FsNode.file none) :: post) =
      findingsList (pre ++ post) := by
  constructor
  · induction pre generalizing clean with
    | nil => simp [scanLoop]
    | cons x rest ih =>
        obtain ⟨q, node⟩ := x
        cases node with
        | dir children => simp only [List.cons_append, scanLoop]; exact ih clean
        | file content =>
            cases content with
            | none => simp only [List.cons_append, scanLoop]; exact ih clean
            | some lines =>
                simp only [List.cons_append, scanLoop, List.append_eq]
                rw [ih]
  · simp [findingsList]

/-- C4 is refuted by the code: `rglob` of a path that is a regular file
yields nothing, so a file given as a root is never a candidate; here a
file root whose single line would be a finding produces no candidate
paths, no output, and exit status 0. -/
theorem fileRoot_not_scanned :
    pathsOf [("f", FsNode.file (some ["// TODO: x"]))] = [] ∧
    check ["// TODO: x"] ≠ [] ∧
    runMain [("f", FsNode.file (some ["// TODO: x"]))] = ([], 0) := by
  have h : pathsOf [("f", FsNode.file (some ["// TODO: x"]))] = [] := by
    simp [pathsOf, rglob]
  refine ⟨h, by decide, ?_⟩
  rw [runMain, h]
  rfl

/-- C4 amended: a root path naming a regular file contributes no candidate
files at all — its content is never scanned — and the run behaves exactly
as if that root had not been supplied. -/
theorem fileRoot_contributes_nothing (p : String) (c : Option (List String))
    (roots : List (String × FsNode)) :
    pathsOf ((p, FsNode.file c) :: roots) = pathsOf roots ∧
    runMain ((p, FsNode.file c) :: roots) = runMain roots := by
  have h : pathsOf ((p, FsNode.file c) :: roots) = pathsOf roots := by
    simp [pathsOf, rglob]
  exact ⟨h, by rw [runMain, h, runMain]⟩

/-- C5: with zero directory arguments the path list is empty, nothing is
scanned, nothing is printed, and the exit status is 0; the current working
directory is not scanned by default. -/
theorem noArgs_clean_exit : pathsOf [] = [] ∧ runMain [] = ([], 0) :=
  ⟨rfl, rfl⟩
